import Mathlib

/-!
Verification of the FTP utility layer (`ftp/utils.py`).

The development shallowly embeds the functions of `ftp/utils.py` into Lean:

* pure string helpers (`os.path.splitext`, Python `str.split` / `str.strip`,
  decimal formatting of the suffix counter) are translated as pure functions on
  `String` / `List Char`;
* the FTP client collaborator (`ftplib.FTP` plus the stub server used by the
  repository's tests) is modelled as a small state machine `Server` together
  with a trace-collecting state-and-error monad `FtpM`;
* the `tenacity` retry decorator configured on line 28 of `ftp/utils.py`
  (`stop_after_attempt(3)`, `wait_fixed(5)`,
  `retry_if_exception_type(ftplib.all_errors)`) is modelled by `retryRun` /
  `retryFtpM`;
* the context manager `FTPLogErrors` and the download sink logic of
  `_download` are modelled by explicit event records.

All definitions are executable (structural recursion only), so every concrete
scenario can be settled by `decide` / `rfl`.
-/

namespace FtpUtils

/-! ## Python string primitives -/

/-- Python `str.split(sep)` for a one-character separator, on the character
list of the string.  Python keeps empty fields: `'a//b'.split('/') =
['a', '', 'b']` and `''.split('/') = ['']`.  The accumulator holds the
characters of the current field in reverse. -/
def pySplitChars (sep : Char) : List Char → List Char → List String
  | [], acc => [⟨acc.reverse⟩]
  | c :: rest, acc =>
    if c = sep then ⟨acc.reverse⟩ :: pySplitChars sep rest []
    else pySplitChars sep rest (c :: acc)

/-- Python `s.split(sep)` for a one-character separator. -/
def pySplit (s : String) (sep : Char) : List String :=
  pySplitChars sep s.data []

/-- Python `s.strip(c)` for a one-character argument: removes every leading
and trailing occurrence of `c`. -/
def pyStrip (s : String) (c : Char) : String :=
  ⟨((s.data.dropWhile (· = c)).reverse.dropWhile (· = c)).reverse⟩

/-- Index of the last occurrence of `c` in the list, starting the numbering
at `i` (helper for `lastIndexOf`). -/
def lastIndexOfAux (c : Char) : List Char → Nat → Option Nat
  | [], _ => none
  | x :: xs, i =>
    match lastIndexOfAux c xs (i + 1) with
    | some j => some j
    | none => if x = c then some i else none

/-- Python `s.rfind(c)` returning `none` instead of `-1`. -/
def lastIndexOf (l : List Char) (c : Char) : Option Nat :=
  lastIndexOfAux c l 0

/-- The decimal digit characters used by Python `str(int)`. -/
def digitChar : Nat → Char
  | 0 => '0' | 1 => '1' | 2 => '2' | 3 => '3' | 4 => '4'
  | 5 => '5' | 6 => '6' | 7 => '7' | 8 => '8' | _ => '9'

/-- Decimal digits of `n`, most significant first; `fuel` bounds the number
of divisions by 10 and any `fuel ≥ n` is enough. -/
def natReprAuxF : Nat → Nat → List Char
  | 0, n => [digitChar n]
  | fuel + 1, n =>
    if n < 10 then [digitChar n]
    else natReprAuxF fuel (n / 10) ++ [digitChar (n % 10)]

/-- Python `str(n)` for a natural number `n` (decimal representation). -/
def natRepr (n : Nat) : String :=
  ⟨natReprAuxF n n⟩

/-- Inverse of `digitChar` on decimal digits. -/
def undigit (c : Char) : Nat := c.toNat - 48

/-- Value of a most-significant-first decimal digit string. -/
def digitsVal (l : List Char) : Nat :=
  l.foldl (fun a c => 10 * a + undigit c) 0

/-- `os.path.splitext` (posix flavour, as used by
`get_unique_file_name_if_exists` on line 211 of `ftp/utils.py`):
splits `p` into `(root, ext)` at the last dot, provided that dot lies after
the last `/` and the part of the base name before it is not made of dots
only (so leading dots of the base name never start an extension). -/
def splitext (p : String) : String × String :=
  let l := p.data
  match lastIndexOf l '.' with
  | none => (p, "")
  | some d =>
    let fi : Nat :=
      match lastIndexOf l '/' with
      | none => 0
      | some s => s + 1
    if fi ≤ d then
      if ((l.drop fi).take (d - fi)).any (fun c => c ≠ '.') then
        (⟨l.take d⟩, ⟨l.drop d⟩)
      else (p, "")
    else (p, "")

/-! ## The unique-name loop (`get_unique_file_name_if_exists`, pure core)

`get_unique_file_name_if_exists` (lines 201–214 of `ftp/utils.py`) lists the
target directory, turns the listing into a set, and then runs

    suffix = 1
    newname = file_name
    while newname in names:
        root, ext = os.path.splitext(file_name)
        newname = '\x7b\x7d-\x7b\x7d\x7b\x7d'.format(root, suffix, ext)
        suffix += 1
    return newname

Membership in `set(names)` coincides with membership in the listing itself,
so the loop is modelled directly over the listing.  The loop is embedded with
explicit fuel; `uniqueAux_correct` and `cand_exists_notMem` below show that
the fuel `names.length + 1` given to it by `uniqueCore` is never exhausted. -/

/-- The candidate tried at step `k` of the loop: the original name for
`k = 0`, and `root-k.ext` (with `(root, ext) = splitext file_name`) for
`k ≥ 1`. -/
def cand (file_name : String) : Nat → String
  | 0 => file_name
  | k + 1 =>
    (splitext file_name).1 ++ "-" ++ natRepr (k + 1) ++ (splitext file_name).2

/-- One loop iteration of `get_unique_file_name_if_exists`: `newname` is the
current candidate and `suffix` the counter to be used for the next one. -/
def uniqueAux (names : List String) (file_name : String) :
    Nat → Nat → String → String
  | fuel, suffix, newname =>
    if newname ∈ names then
      match fuel with
      | 0 => newname
      | fuel' + 1 =>
        uniqueAux names file_name fuel' (suffix + 1)
          ((splitext file_name).1 ++ "-" ++ natRepr suffix ++
            (splitext file_name).2)
    else newname

/-- The pure core of `get_unique_file_name_if_exists`: the while loop run on
the directory listing `names` (fuel `names.length + 1` is proved sufficient
below). -/
def uniqueCore (names : List String) (file_name : String) : String :=
  uniqueAux names file_name (names.length + 1) 1 file_name

/-! ## The FTP collaborator model

`ftp/utils.py` drives an external `ftplib.FTP` client against an FTP server.
Neither is code of this repository (the stub server used by the tests,
`ftp/tests/ftpstub.py`, is not under `src/` either), so the collaborator is
modelled here as a small state machine.

Modelled from the spec: §6 requires the collaborator to expose
`change-directory`, `make-directory`, `list-names`, `store-binary`; the
remote state is "a set of file name strings" per directory (§3) plus the
session's current directory.  Two behaviours are fixed from the
collaborator's documented sides: `ftplib.FTP.cwd('')` sends `CWD .` (the
Python standard library maps the empty string to `'.'`), i.e. it leaves the
current directory unchanged; and the server accepts `MKD` of an existing
directory silently (the stub server behaves this way — the repository's test
`test_unique_names_are_generated_for_similar_uploaded_files` uploads three
times into the same directory, which calls `makedirs` three times, and
passes; §8 of the spec asserts the same scenario). -/

/-- One FTP command issued by the wrapper, as recorded in the trace. -/
inductive Cmd
  | cwd (path : String)
  | mkd (path : String)
  | nlst (directory : String)
  | stor (command : String)
deriving DecidableEq

/-- Python exceptions relevant to `ftp/utils.py`:
`ftplib.Error` subclasses, `OSError` (raised by `upload_file` on a missing
local file), and `tenacity.RetryError` (raised by the retry decorator after
exhausting its attempts, wrapping the last attempt's exception). -/
inductive PyErr
  | ftpError (msg : String)
  | osError (msg : String)
  | retryError (last : PyErr)
deriving DecidableEq

/-- Remote FTP state: the set of existing directories (each an absolute path
given by its segments; the root is `[]`), the set of remote files (directory
segments paired with the bare file name), and the session's current
directory. -/
structure Server where
  dirs : List (List String)
  files : List (List String × String)
  cwd : List String
deriving DecidableEq

/-- Does the path string start with `/` (absolute FTP path)? -/
def isAbs (p : String) : Bool :=
  p.data.head? == some '/'

/-- The non-empty `/`-separated segments of a path string. -/
def pathSegs (p : String) : List String :=
  (pySplit p '/').filter (fun s => s ≠ "")

/-- Resolution of a path string against the current directory, as a standard
FTP server resolves `CWD`/`MKD`/`NLST` arguments: absolute paths restart at
the root, relative ones extend the current directory.  (`''` resolves to the
current directory itself, matching `ftplib.FTP.cwd('')`, which sends
`CWD .`.) -/
def resolvePath (cur : List String) (p : String) : List String :=
  if isAbs p then pathSegs p else cur ++ pathSegs p

/-- The trace-collecting state-and-error monad for FTP operations: a
computation returns the list of issued commands, the server state after it
(mutations before an exception persist, as in Python), and either a value or
the raised exception. -/
def FtpM (α : Type) : Type :=
  Server → List Cmd × Server × Except PyErr α

/-- Return without touching the connection. -/
def FtpM.pure (a : α) : FtpM α := fun s => ([], s, .ok a)

/-- Sequencing: run `x`; on an exception it propagates (keeping the trace and
the mutated state), otherwise continue with `f`. -/
def FtpM.bind (x : FtpM α) (f : α → FtpM β) : FtpM β := fun s =>
  match x s with
  | (t, s1, .error e) => (t, s1, .error e)
  | (t, s1, .ok a) =>
    match f a s1 with
    | (t2, s2, r) => (t ++ t2, s2, r)

/-- `ftp_client.cwd(path)`: resolve the path; move there if that directory
exists, otherwise raise an `ftplib` error. -/
def FTP.cwd (path : String) : FtpM Unit := fun s =>
  ([Cmd.cwd path],
    let tgt := resolvePath s.cwd path
    if tgt ∈ s.dirs then ({ s with cwd := tgt }, .ok ())
    else (s, .error (.ftpError ("550 " ++ path))))

/-- `ftp_client.mkd(path)`: resolve the path; an empty directory name is an
error; creating an existing directory succeeds silently (stub-server
behaviour, see the section comment); otherwise the parent must exist and the
directory is added. -/
def FTP.mkd (path : String) : FtpM String := fun s =>
  ([Cmd.mkd path],
    let tgt := resolvePath s.cwd path
    if pathSegs path = [] then (s, .error (.ftpError ("501 " ++ path)))
    else if tgt ∈ s.dirs then (s, .ok path)
    else if tgt.dropLast ∈ s.dirs then
      ({ s with dirs := tgt :: s.dirs }, .ok path)
    else (s, .error (.ftpError ("550 " ++ path))))

/-- `ftp_client.nlst(directory)`: list the bare file names in the resolved
directory (the current one for `''`). -/
def FTP.nlst (directory : String) : FtpM (List String) := fun s =>
  ([Cmd.nlst directory],
    let d := resolvePath s.cwd directory
    if d ∈ s.dirs then
      (s, .ok ((s.files.filter (fun f => f.1 = d)).map (fun f => f.2)))
    else (s, .error (.ftpError ("550 " ++ directory))))

/-- `ftp_client.storbinary(command, file)`: the command string must be
`STOR name`; the file is created (or overwritten) under `name` in the
current directory.  File contents are not modelled: no claim depends on the
bytes of an uploaded file. -/
def FTP.storbinary (command : String) : FtpM Unit := fun s =>
  ([Cmd.stor command],
    if command.data.take 5 = "STOR ".data then
      let name : String := ⟨command.data.drop 5⟩
      if (s.cwd, name) ∈ s.files then (s, .ok ())
      else ({ s with files := (s.cwd, name) :: s.files }, .ok ())
    else (s, .error (.ftpError ("500 " ++ command))))

/-- The bare file names present in directory `d` of server `s`. -/
def dirListing (s : Server) (d : List String) : List String :=
  (s.files.filter (fun f => f.1 = d)).map (fun f => f.2)

/-! ## The wrapper functions of `ftp/utils.py` over the model -/

/-- `list_files` (lines 192–198): a thin pass-through to `nlst`. -/
def list_files (directory : String := "") : FtpM (List String) :=
  FTP.nlst directory

/-- `get_unique_file_name_if_exists` (lines 201–214): list the directory and
run the unique-name loop (`uniqueCore`) on the listing. -/
def get_unique_file_name_if_exists (file_name : String)
    (directory : String := "") : FtpM String :=
  FtpM.bind (list_files directory) (fun names =>
    FtpM.pure (uniqueCore names file_name))

/-- The fields `makedirs` iterates over: `path.strip('/').split('/')`
(line 165). -/
def stripSegs (path : String) : List String :=
  pySplit (pyStrip path '/') '/'

/-- The arguments of the `mkd` commands of a trace, in order. -/
def mkdArgs (t : List Cmd) : List String :=
  t.filterMap (fun c => match c with | .mkd p => some p | _ => none)

/-- The command trace of the `makedirs` loop body over the given fields:
one `mkd` and one `cwd` per field. -/
def segTrace : List String → List Cmd
  | [] => []
  | g :: rest => Cmd.mkd g :: Cmd.cwd g :: segTrace rest

/-- The per-segment loop of `makedirs` (lines 166–168):
`ftp_client.mkd(subpath); ftp_client.cwd(subpath)` for each subpath. -/
def makedirsLoop : List String → FtpM Unit
  | [] => FtpM.pure ()
  | subpath :: rest =>
    FtpM.bind (FTP.mkd subpath) (fun _ =>
      FtpM.bind (FTP.cwd subpath) (fun _ =>
        makedirsLoop rest))

/-- `makedirs` (lines 158–170): `cwd(base_directory)`, then for each field of
`path.strip('/').split('/')` an `mkd` followed by a `cwd`, then
`cwd(base_directory)` again. -/
def makedirs (path : String) (base_directory : String := "/") : FtpM Unit :=
  FtpM.bind (FTP.cwd base_directory) (fun _ =>
    FtpM.bind (makedirsLoop (stripSegs path)) (fun _ =>
      FTP.cwd base_directory))

/-- The local file system visible to `upload_file`: `os.path.exists` and
`os.path.isfile` as boolean predicates on paths. -/
structure LocalFS where
  pathExists : String → Bool
  isfile : String → Bool

/-- `os.path.join(a, b)` for posix paths as used on line 92. -/
def pathJoin (a b : String) : String :=
  if isAbs b then b
  else if a = "" then b
  else if a.data.getLast? = some '/' then a ++ b
  else a ++ "/" ++ b

/-- `upload_file` (lines 82–104), undecorated body.  Checks the local
precondition (raising `OSError('Does not exist ...')` before any FTP call),
ensures the remote directory, switches into it, resolves the output name
(the unique name unless `rename_existing`), stores, and returns the output
name (`os.path.join` of a single argument is that argument). -/
def upload_file (fs : LocalFS) (local_directory : String) (file_name : String)
    (ftp_directory : String) (rename_existing : Bool := false) : FtpM String :=
  fun s =>
    let file_path := pathJoin local_directory file_name
    if ¬(fs.pathExists file_path && fs.isfile file_path) then
      ([], s, .error (.osError ("Does not exist " ++ file_path)))
    else
      (FtpM.bind (makedirs ftp_directory) (fun _ =>
        FtpM.bind (FTP.cwd ftp_directory) (fun _ =>
          FtpM.bind
            (if rename_existing then FtpM.pure file_name
             else get_unique_file_name_if_exists file_name)
            (fun out_name =>
              FtpM.bind (FTP.storbinary ("STOR " ++ out_name)) (fun _ =>
                FtpM.pure out_name))))) s

/-! ## The retry decorator

`retry = tenacity.retry(stop=tenacity.stop_after_attempt(3),
wait=tenacity.wait_fixed(5), retry=tenacity.retry_if_exception_type(
ftplib.all_errors))` (lines 28–29).

Modelled from tenacity's documented semantics: each attempt runs the wrapped
operation; an exception matching the `retry` predicate triggers a sleep of
the fixed wait and a new attempt while fewer than the maximum number of
attempts have been made, and once the stop condition is reached a
`tenacity.RetryError` wrapping the last attempt is raised (the decorator is
built without `reraise=True`).  An exception not matching the predicate is
re-raised as-is after the first attempt at which it occurs.

In Python 3, `ftplib.all_errors = (Error, OSError, EOFError)` — note that it
contains `OSError`. -/

/-- Does the exception match `retry_if_exception_type(ftplib.all_errors)`?
`ftplib.Error` subclasses and `OSError` do; `tenacity.RetryError` (a plain
`Exception`) does not. -/
def isFtplibAllError : PyErr → Bool
  | .ftpError _ => true
  | .osError _ => true
  | .retryError _ => false

/-- Outcome of a retried operation: how many attempts ran, the sleeps (in
tenacity's time units) between them, and the final result. -/
structure RetryOutcome (α : Type) where
  attempts : Nat
  delays : List Nat
  result : Except PyErr α

/-- The retry loop over an abstract operation whose behaviour on the `i`-th
attempt is `op i`; the first argument is the current attempt number and the
second the number of further attempts the stop condition still allows. -/
def retryAttempts (op : Nat → Except PyErr α) : Nat → Nat → RetryOutcome α
  | attempt, 0 =>
    (match op attempt with
      | .ok a => ⟨attempt, [], .ok a⟩
      | .error e =>
        ⟨attempt, [],
          if isFtplibAllError e then .error (.retryError e) else .error e⟩)
  | attempt, r + 1 =>
    (match op attempt with
      | .ok a => ⟨attempt, [], .ok a⟩
      | .error e =>
        if isFtplibAllError e then
          let o := retryAttempts op (attempt + 1) r
          ⟨o.attempts, 5 :: o.delays, o.result⟩
        else ⟨attempt, [], .error e⟩)

/-- The `retry` decorator on an abstract operation: first attempt is number
1, and `stop_after_attempt(3)` allows two further attempts. -/
def retryRun (op : Nat → Except PyErr α) : RetryOutcome α :=
  retryAttempts op 1 2

/-- Outcome of a retried FTP operation: accumulated command trace, attempt
count, sleeps, final server state and result. -/
structure RetryResult (α : Type) where
  trace : List Cmd
  attempts : Nat
  delays : List Nat
  server : Server
  result : Except PyErr α

/-- The retry loop over an `FtpM` operation: the server state (and the
command trace) persists across attempts, as real-world FTP state does when
tenacity re-runs the decorated function. -/
def retryFtpMAux (op : FtpM α) : Nat → Nat → Server → RetryResult α
  | attempt, 0, s =>
    (match op s with
      | (t, s1, .ok a) => ⟨t, attempt, [], s1, .ok a⟩
      | (t, s1, .error e) =>
        ⟨t, attempt, [], s1,
          if isFtplibAllError e then .error (.retryError e) else .error e⟩)
  | attempt, r + 1, s =>
    (match op s with
      | (t, s1, .ok a) => ⟨t, attempt, [], s1, .ok a⟩
      | (t, s1, .error e) =>
        if isFtplibAllError e then
          let o := retryFtpMAux op (attempt + 1) r s1
          ⟨t ++ o.trace, o.attempts, 5 :: o.delays, o.server, o.result⟩
        else ⟨t, attempt, [], s1, .error e⟩)

/-- The `retry` decorator applied to an `FtpM` operation. -/
def retryFtpM (op : FtpM α) (s : Server) : RetryResult α :=
  retryFtpMAux op 1 2 s

/-! ## The resource guard `FTPLogErrors` -/

/-- Observable actions of `FTPLogErrors.__exit__`, in order. -/
inductive GuardEvent
  | logError (e : PyErr)
  | closeConn
deriving DecidableEq

/-- `with FTPLogErrors(conn) as c: body` (lines 36–50): the `__exit__`
override logs the exception when one is propagating, then closes the wrapped
connection (`self.thing.close()`); it returns `None`, so the with-statement
re-raises the body's exception unchanged.  `body` is the body's outcome; the
result is the ordered list of guard actions and the outcome seen by the
caller of the with-block. -/
def FTPLogErrors (body : Except PyErr α) : List GuardEvent × Except PyErr α :=
  match body with
  | .ok a => ([.closeConn], .ok a)
  | .error e => ([.logError e, .closeConn], .error e)

/-! ## The download sink logic of `_download` -/

/-- Observable local-side effects of one `_download` call (lines 136–155):
which local file was opened (with its mode), the chunks written to that
internally opened file, the files closed at the end, and the chunks fed to a
caller-supplied `download_handler`. -/
structure DlState (β : Type) where
  opened : List (String × String)
  fileWrites : List (String × β)
  closedFiles : List String
  handlerCalls : List β
  retrCommand : String

/-- `_download` (lines 136–155): when no `download_handler` is supplied, the
local destination is opened with mode `wb` and its `write` becomes the sink;
`retrbinary` feeds every received chunk (`chunks`, in arrival order) to the
sink; finally the internally opened file — and nothing else — is closed.
`ftp_file_path` only names the remote file in the `RETR` command and does
not influence the local effects. -/
def download_inner (local_file_path : String) (ftp_file_path : String)
    (chunks : List β) (handlerSupplied : Bool) : DlState β :=
  let st0 : DlState β := ⟨[], [], [], [], "RETR " ++ ftp_file_path⟩
  let fileOpened : Option String :=
    if handlerSupplied then none else some local_file_path
  let st1 : DlState β :=
    match fileOpened with
    | some p => { st0 with opened := [(p, "wb")] }
    | none => st0
  let st2 : DlState β :=
    chunks.foldl
      (fun st c =>
        match fileOpened with
        | some p => { st with fileWrites := st.fileWrites ++ [(p, c)] }
        | none => { st with handlerCalls := st.handlerCalls ++ [c] })
      st1
  match fileOpened with
  | some p => { st2 with closedFiles := [p] }
  | none => st2

/-! ## Concrete scenario inputs -/

/-- A local file system on which every path is an existing regular file. -/
def fsAll : LocalFS := ⟨fun _ => true, fun _ => true⟩

/-- A local file system with no files at all. -/
def fsNone : LocalFS := ⟨fun _ => false, fun _ => false⟩

/-- A fresh FTP server: only the root directory, no files, session at the
root. -/
def srv0 : Server := ⟨[[]], [], []⟩

/-- First upload of `sample.txt` into `test/data/` (the scenario of the
repository's upload tests), from the fresh server. -/
def up1 (rename : Bool) : List Cmd × Server × Except PyErr String :=
  upload_file fsAll "test/data" "sample.txt" "test/data/" rename srv0

/-- Second upload of the same local file. -/
def up2 (rename : Bool) : List Cmd × Server × Except PyErr String :=
  upload_file fsAll "test/data" "sample.txt" "test/data/" rename (up1 rename).2.1

/-- Third upload of the same local file. -/
def up3 (rename : Bool) : List Cmd × Server × Except PyErr String :=
  upload_file fsAll "test/data" "sample.txt" "test/data/" rename (up2 rename).2.1

/-! ## Facts about the decimal representation -/

theorem undigit_digitChar {d : Nat} (h : d < 10) : undigit (digitChar d) = d := by
  interval_cases d <;> rfl

theorem digitsVal_append_digit (l : List Char) (c : Char) :
    digitsVal (l ++ [c]) = 10 * digitsVal l + undigit c := by
  simp [digitsVal, List.foldl_append]

theorem digitsVal_natReprAuxF :
    ∀ fuel n, n ≤ fuel + 9 → digitsVal (natReprAuxF fuel n) = n := by
  intro fuel
  induction fuel with
  | zero =>
    intro n hn
    have h10 : n < 10 := by omega
    simp [natReprAuxF, digitsVal, undigit_digitChar h10]
  | succ f ih =>
    intro n hn
    by_cases h10 : n < 10
    · simp [natReprAuxF, h10, digitsVal, undigit_digitChar h10]
    · have hdiv : n / 10 < n := Nat.div_lt_self (by omega) (by omega)
      have hmod : n % 10 < 10 := Nat.mod_lt _ (by omega)
      simp only [natReprAuxF, if_neg h10]
      rw [digitsVal_append_digit, ih (n / 10) (by omega), undigit_digitChar hmod]
      omega

theorem natReprAuxF_ne_nil (fuel n : Nat) : natReprAuxF fuel n ≠ [] := by
  cases fuel with
  | zero => simp [natReprAuxF]
  | succ f =>
    by_cases h10 : n < 10 <;> simp [natReprAuxF, h10]

theorem natRepr_injective {m n : Nat} (h : natRepr m = natRepr n) : m = n := by
  have hdata : natReprAuxF m m = natReprAuxF n n := congrArg String.data h
  have hm := digitsVal_natReprAuxF m m (by omega)
  have hn := digitsVal_natReprAuxF n n (by omega)
  rw [← hm, ← hn, hdata]

/-! ## Facts about `splitext` and the candidate sequence -/

theorem string_append_data (a b : String) : (a ++ b).data = a.data ++ b.data := rfl

theorem splitext_data (p : String) :
    (splitext p).1.data ++ (splitext p).2.data = p.data := by
  unfold splitext
  rcases h : lastIndexOf p.data '.' with _ | d
  · simp [h]
  · simp only [h]
    split
    · split
      · simp [List.take_append_drop]
      · simp
    · simp

/-- Character-list form of the candidate `root-k.ext`. -/
theorem cand_succ_data (fn : String) (k : Nat) :
    (cand fn (k + 1)).data =
      (splitext fn).1.data ++ '-' ::
        (natReprAuxF (k + 1) (k + 1) ++ (splitext fn).2.data) := by
  show ((splitext fn).1 ++ "-" ++ natRepr (k + 1) ++ (splitext fn).2).data = _
  simp [string_append_data, natRepr]

theorem cand_injective (fn : String) :
    ∀ j k, cand fn j = cand fn k → j = k := by
  have hlen : ∀ k, (cand fn (k + 1)).data.length = fn.data.length + 1 +
      (natReprAuxF (k + 1) (k + 1)).length := by
    intro k
    have h1 := congrArg List.length (cand_succ_data fn k)
    have h2 := congrArg List.length (splitext_data fn)
    simp only [List.length_append, List.length_cons] at h1 h2
    omega
  have hdig : ∀ k, (natReprAuxF (k + 1) (k + 1)).length ≠ 0 := by
    intro k h
    exact natReprAuxF_ne_nil (k + 1) (k + 1) (List.length_eq_zero.mp h)
  intro j k h
  match j, k with
  | 0, 0 => rfl
  | 0, k + 1 =>
    exfalso
    have := hlen k
    rw [show cand fn 0 = fn from rfl] at h
    rw [← h] at this
    have := hdig k
    omega
  | j + 1, 0 =>
    exfalso
    have := hlen j
    rw [show cand fn 0 = fn from rfl] at h
    rw [h] at this
    have := hdig j
    omega
  | j + 1, k + 1 =>
    have hd : (cand fn (j + 1)).data = (cand fn (k + 1)).data := congrArg _ h
    rw [cand_succ_data, cand_succ_data] at hd
    have hd2 := List.append_cancel_left hd
    have hd3 := List.append_cancel_right (List.cons.injEq .. ▸ hd2).2
    have : natRepr (j + 1) = natRepr (k + 1) := congrArg String.mk hd3
    exact congrArg (· + 1) (Nat.succ_injective (natRepr_injective this))

/-! ## Correctness of the unique-name loop -/

theorem uniqueAux_correct (names : List String) (fn : String) :
    ∀ fuel k, (∃ j, k ≤ j ∧ j < k + 1 + fuel ∧ cand fn j ∉ names) →
      ∃ m, k ≤ m ∧ cand fn m ∉ names ∧
        (∀ j, k ≤ j → j < m → cand fn j ∈ names) ∧
        uniqueAux names fn fuel (k + 1) (cand fn k) = cand fn m := by
  intro fuel
  induction fuel with
  | zero =>
    rintro k ⟨j, hkj, hjlt, hj⟩
    have hjk : j = k := by omega
    subst hjk
    refine ⟨j, Nat.le_refl _, hj, fun j' h1 h2 => absurd h2 (by omega), ?_⟩
    simp only [uniqueAux, if_neg hj]
  | succ f ih =>
    intro k hex
    by_cases hk : cand fn k ∈ names
    · have hex2 : ∃ j, k + 1 ≤ j ∧ j < (k + 1) + 1 + f ∧ cand fn j ∉ names := by
        obtain ⟨j, h1, h2, h3⟩ := hex
        have : j ≠ k := fun he => h3 (he ▸ hk)
        exact ⟨j, by omega, by omega, h3⟩
      obtain ⟨m, hm1, hm2, hm3, hm4⟩ := ih (k + 1) hex2
      refine ⟨m, by omega, hm2, ?_, ?_⟩
      · intro j h1 h2
        rcases Nat.eq_or_lt_of_le h1 with he | hlt
        · exact he ▸ hk
        · exact hm3 j hlt h2
      · show uniqueAux names fn (f + 1) (k + 1) (cand fn k) = cand fn m
        simp only [uniqueAux, if_pos hk]
        exact hm4
    · exact ⟨k, Nat.le_refl _, hk, fun j' h1 h2 => absurd h2 (by omega),
        by simp only [uniqueAux, if_neg hk]⟩

/-- Some candidate with index at most `names.length + 1` is not listed:
the candidates are pairwise distinct, while `names` has only
`names.length` members. -/
theorem cand_exists_notMem (names : List String) (fn : String) :
    ∃ j, j ≤ names.length + 1 ∧ cand fn j ∉ names := by
  by_contra hcon
  push_neg at hcon
  have hmapsto : ∀ a ∈ Finset.range (names.length + 2), cand fn a ∈ names.toFinset := by
    intro a ha
    rw [List.mem_toFinset]
    exact hcon a (by simpa using Nat.lt_succ_iff.mp (by simpa using ha))
  have hinj : Set.InjOn (cand fn) (Finset.range (names.length + 2)) := by
    intro a _ b _ h
    exact cand_injective fn a b h
  have hcard := Finset.card_le_card_of_injOn (cand fn) hmapsto hinj
  have := names.toFinset_card_le
  simp [Finset.card_range] at hcard
  omega

/-- Full characterisation of the loop result: `uniqueCore` returns the
candidate with the smallest index that is not in the listing. -/
theorem uniqueCore_spec (names : List String) (fn : String) :
    ∃ m, cand fn m ∉ names ∧ (∀ j, j < m → cand fn j ∈ names) ∧
      uniqueCore names fn = cand fn m := by
  obtain ⟨j, hj1, hj2⟩ := cand_exists_notMem names fn
  obtain ⟨m, _, hm2, hm3, hm4⟩ :=
    uniqueAux_correct names fn (names.length + 1) 0 ⟨j, by omega, by omega, hj2⟩
  exact ⟨m, hm2, fun j' h => hm3 j' (by omega) h, hm4⟩

/-! ## Facts about path splitting and resolution -/

theorem pySplitChars_no_sep (sep : Char) :
    ∀ (l acc : List Char), sep ∉ acc →
      ∀ g ∈ pySplitChars sep l acc, sep ∉ g.data := by
  intro l
  induction l with
  | nil =>
    intro acc hacc g hg
    simp only [pySplitChars, List.mem_singleton] at hg
    subst hg
    simpa using hacc
  | cons c rest ih =>
    intro acc hacc g hg
    by_cases hc : c = sep
    · simp only [pySplitChars, if_pos hc, List.mem_cons] at hg
      rcases hg with hg | hg
      · subst hg; simpa using hacc
      · exact ih [] (by simp) g hg
    · simp only [pySplitChars, if_neg hc] at hg
      refine ih (c :: acc) ?_ g hg
      simp only [List.mem_cons, not_or]
      exact ⟨fun he => hc he.symm, hacc⟩

theorem stripSegs_no_sep (path : String) :
    ∀ g ∈ stripSegs path, '/' ∉ g.data := by
  intro g hg
  exact pySplitChars_no_sep '/' _ [] (by simp) g hg

theorem pySplitChars_of_no_sep (sep : Char) :
    ∀ (l acc : List Char), sep ∉ l →
      pySplitChars sep l acc = [⟨acc.reverse ++ l⟩] := by
  intro l
  induction l with
  | nil => intro acc _; simp [pySplitChars]
  | cons c rest ih =>
    intro acc hl
    simp only [List.mem_cons, not_or] at hl
    have hc : ¬(c = sep) := fun h => hl.1 h.symm
    simp only [pySplitChars, if_neg hc]
    rw [ih (c :: acc) hl.2]
    simp

theorem isAbs_of_no_sep {g : String} (h : '/' ∉ g.data) : isAbs g = false := by
  unfold isAbs
  rcases hd : g.data with _ | ⟨c, l⟩
  · rfl
  · rw [hd] at h
    simp only [List.mem_cons, not_or] at h
    simp only [List.head?_cons, beq_eq_false_iff_ne, ne_eq, Option.some.injEq]
    exact fun he => h.1 he.symm

theorem pathSegs_of_no_sep {g : String} (hsep : '/' ∉ g.data) (hne : g ≠ "") :
    pathSegs g = [g] := by
  unfold pathSegs pySplit
  rw [pySplitChars_of_no_sep '/' g.data [] hsep]
  simp only [List.reverse_nil, List.nil_append]
  have hg : (⟨g.data⟩ : String) = g := rfl
  rw [hg]
  simp [List.filter_singleton, hne]

theorem resolvePath_single {g : String} (hsep : '/' ∉ g.data) (hne : g ≠ "")
    (cur : List String) : resolvePath cur g = cur ++ [g] := by
  unfold resolvePath
  rw [isAbs_of_no_sep hsep, pathSegs_of_no_sep hsep hne]
  simp

theorem pathSegs_empty : pathSegs "" = [] := rfl

theorem resolvePath_empty (cur : List String) : resolvePath cur "" = cur := by
  unfold resolvePath
  simp [isAbs, pathSegs_empty]

theorem resolvePath_abs {base : String} (habs : isAbs base = true)
    (cur : List String) : resolvePath cur base = pathSegs base := by
  unfold resolvePath
  rw [habs]
  rfl

/-! ## Elimination facts for the FTP primitives -/

theorem FTP.cwd_ok {p : String} {s : Server} {t : List Cmd} {s1 : Server}
    {u : Unit} (h : FTP.cwd p s = (t, s1, .ok u)) :
    t = [Cmd.cwd p] ∧ s1 = { s with cwd := resolvePath s.cwd p } ∧
      resolvePath s.cwd p ∈ s.dirs := by
  simp only [FTP.cwd] at h
  split at h
  · rename_i hmem
    simp only [Prod.mk.injEq] at h
    exact ⟨h.1.symm, h.2.1.symm, hmem⟩
  · simp only [Prod.mk.injEq] at h
    exact absurd h.2.2 (by simp)

theorem FTP.cwd_server (p : String) (s : Server) :
    (FTP.cwd p s).2.1.dirs = s.dirs ∧ (FTP.cwd p s).2.1.files = s.files := by
  simp only [FTP.cwd]
  split <;> exact ⟨rfl, rfl⟩

theorem FTP.mkd_ok {g : String} {s : Server} {t : List Cmd} {s1 : Server}
    {v : String} (hsep : '/' ∉ g.data)
    (h : FTP.mkd g s = (t, s1, .ok v)) :
    t = [Cmd.mkd g] ∧ g ≠ "" ∧ s1.cwd = s.cwd ∧ s1.files = s.files ∧
      s.cwd ++ [g] ∈ s1.dirs ∧
      (∀ d, d ∈ s1.dirs ↔ d ∈ s.dirs ∨ d = s.cwd ++ [g]) := by
  have hne : g ≠ "" := by
    intro he
    subst he
    simp [FTP.mkd, pathSegs_empty] at h
  simp only [FTP.mkd, resolvePath_single hsep hne] at h
  rw [if_neg (by simp [pathSegs_of_no_sep hsep hne])] at h
  split at h
  · rename_i hmem
    simp only [Prod.mk.injEq] at h
    obtain ⟨h1, h2, -⟩ := h
    subst h2
    refine ⟨h1.symm, hne, rfl, rfl, hmem, ?_⟩
    intro d
    constructor
    · exact fun hd => Or.inl hd
    · rintro (hd | hd)
      · exact hd
      · exact hd ▸ hmem
  · split at h
    · simp only [Prod.mk.injEq] at h
      obtain ⟨h1, h2, -⟩ := h
      subst h2
      refine ⟨h1.symm, hne, rfl, rfl, List.mem_cons_self _ _, ?_⟩
      intro d
      simp only [List.mem_cons]
      constructor
      · rintro (hd | hd)
        · exact Or.inr hd
        · exact Or.inl hd
      · rintro (hd | hd)
        · exact Or.inr hd
        · exact Or.inl hd
    · simp only [Prod.mk.injEq] at h
      exact absurd h.2.2 (by simp)

theorem FTP.mkd_server (g : String) (s : Server) :
    (FTP.mkd g s).2.1.cwd = s.cwd ∧ (FTP.mkd g s).2.1.files = s.files := by
  simp only [FTP.mkd]
  split
  · exact ⟨rfl, rfl⟩
  · split
    · exact ⟨rfl, rfl⟩
    · split <;> exact ⟨rfl, rfl⟩

theorem FTP.nlst_server (d : String) (s : Server) : (FTP.nlst d s).2.1 = s := by
  simp only [FTP.nlst]
  split <;> rfl

theorem FTP.nlst_current_ok {s : Server} (hmem : s.cwd ∈ s.dirs) :
    FTP.nlst "" s = ([Cmd.nlst ""], s, .ok (dirListing s s.cwd)) := by
  simp only [FTP.nlst, resolvePath_empty, if_pos hmem]
  rfl

/-! ## Behaviour of `makedirs` -/

theorem makedirsLoop_ok :
    ∀ (segs : List String), (∀ g ∈ segs, '/' ∉ g.data) → ∀ (s : Server) t s2,
      makedirsLoop segs s = (t, s2, .ok ()) →
      s2.cwd = s.cwd ++ segs ∧ s2.files = s.files ∧
      (∀ d, d ∈ s2.dirs ↔ d ∈ s.dirs ∨
        ∃ i, i < segs.length ∧ d = s.cwd ++ segs.take (i + 1)) ∧
      t = segTrace segs := by
  intro segs
  induction segs with
  | nil =>
    intro _ s t s2 h
    simp only [makedirsLoop, FtpM.pure, Prod.mk.injEq] at h
    obtain ⟨h1, h2, -⟩ := h
    subst h1
    subst h2
    refine ⟨by simp, rfl, ?_, rfl⟩
    intro d
    simp
  | cons g rest ih =>
    intro hsep s t s2 h
    have hg : '/' ∉ g.data := hsep g (List.mem_cons_self _ _)
    have hrest : ∀ x ∈ rest, '/' ∉ x.data :=
      fun x hx => hsep x (List.mem_cons_of_mem _ hx)
    simp only [makedirsLoop, FtpM.bind] at h
    rcases h1 : FTP.mkd g s with ⟨t1, s1, r1⟩
    rw [h1] at h
    cases r1 with
    | error e => simp at h
    | ok v =>
      dsimp only [] at h
      rcases h2 : FTP.cwd g s1 with ⟨t2, s2eh, r2⟩
      rw [h2] at h
      cases r2 with
      | error e => simp at h
      | ok u =>
        dsimp only [] at h
        rcases h3 : makedirsLoop rest s2eh with ⟨t3, s3, r3⟩
        rw [h3] at h
        cases r3 with
        | error e =>
          dsimp only [] at h
          simp at h
        | ok w =>
          dsimp only [] at h
          simp only [Prod.mk.injEq] at h
          obtain ⟨ht, hs, -⟩ := h
          subst hs
          obtain ⟨hm1, hmne, hm2, hm3, hm4, hm5⟩ := FTP.mkd_ok hg h1
          obtain ⟨hc1, hc2, hc3⟩ := FTP.cwd_ok h2
          have hres : resolvePath s1.cwd g = s.cwd ++ [g] := by
            rw [resolvePath_single hg hmne, hm2]
          have hcwd2 : s2eh.cwd = s.cwd ++ [g] := by rw [hc2]; exact hres
          have hdirs2 : s2eh.dirs = s1.dirs := by rw [hc2]
          have hfiles2 : s2eh.files = s1.files := by rw [hc2]
          obtain ⟨hL1, hL2, hL3, hL4⟩ := ih hrest s2eh t3 _ h3
          refine ⟨?_, ?_, ?_, ?_⟩
          · rw [hL1, hcwd2]
            simp
          · rw [hL2, hfiles2, hm3]
          · intro d
            rw [hL3 d, hdirs2, hm5 d, hcwd2]
            constructor
            · rintro ((hd | hd) | ⟨j, hj, hd⟩)
              · exact Or.inl hd
              · exact Or.inr ⟨0, by simp, by simpa using hd⟩
              · refine Or.inr ⟨j + 1, by simpa using hj, ?_⟩
                rw [hd]
                simp [List.take_succ_cons]
            · rintro (hd | ⟨i, hi, hd⟩)
              · exact Or.inl (Or.inl hd)
              · cases i with
                | zero =>
                  refine Or.inl (Or.inr ?_)
                  simpa using hd
                | succ j =>
                  refine Or.inr ⟨j, by simpa using hi, ?_⟩
                  rw [hd]
                  simp [List.take_succ_cons]
          · rw [← ht, hm1, hc1, hL4]
            simp [segTrace]

theorem makedirsLoop_files :
    ∀ (segs : List String) (s : Server),
      ((makedirsLoop segs s).2.1).files = s.files := by
  intro segs
  induction segs with
  | nil => intro s; rfl
  | cons g rest ih =>
    intro s
    simp only [makedirsLoop, FtpM.bind]
    rcases h1 : FTP.mkd g s with ⟨t1, s1, r1⟩
    have hf1 : s1.files = s.files := by
      have hm := (FTP.mkd_server g s).2
      rw [h1] at hm
      exact hm
    cases r1 with
    | error e =>
      dsimp only []
      exact hf1
    | ok v =>
      dsimp only []
      rcases h2 : FTP.cwd g s1 with ⟨t2, s2, r2⟩
      have hf2 : s2.files = s1.files := by
        have hm := (FTP.cwd_server g s1).2
        rw [h2] at hm
        exact hm
      cases r2 with
      | error e =>
        dsimp only []
        rw [hf2, hf1]
      | ok u =>
        dsimp only []
        rcases h3 : makedirsLoop rest s2 with ⟨t3, s3, r3⟩
        have hf3 : s3.files = s2.files := by
          have hm := ih s2
          rw [h3] at hm
          exact hm
        dsimp only []
        rw [hf3, hf2, hf1]

theorem makedirsLoop_mkdArgs :
    ∀ (segs : List String) (s : Server),
      (∃ n, n ≤ segs.length ∧
        mkdArgs (makedirsLoop segs s).1 = segs.take n) ∧
      ((makedirsLoop segs s).2.2 = .ok () →
        mkdArgs (makedirsLoop segs s).1 = segs) := by
  intro segs
  induction segs with
  | nil =>
    intro s
    exact ⟨⟨0, by simp, rfl⟩, fun _ => rfl⟩
  | cons g rest ih =>
    intro s
    simp only [makedirsLoop, FtpM.bind]
    rcases h1 : FTP.mkd g s with ⟨t1, s1, r1⟩
    have ht1 : t1 = [Cmd.mkd g] := by
      have hm : (FTP.mkd g s).1 = [Cmd.mkd g] := rfl
      rw [h1] at hm
      exact hm
    subst ht1
    cases r1 with
    | error e =>
      dsimp only []
      refine ⟨⟨1, by simp, by simp [mkdArgs]⟩, fun hok => absurd hok (by simp)⟩
    | ok v =>
      dsimp only []
      rcases h2 : FTP.cwd g s1 with ⟨t2, s2, r2⟩
      have ht2 : t2 = [Cmd.cwd g] := by
        have hm : (FTP.cwd g s1).1 = [Cmd.cwd g] := rfl
        rw [h2] at hm
        exact hm
      subst ht2
      cases r2 with
      | error e =>
        dsimp only []
        refine ⟨⟨1, by simp, by simp [mkdArgs]⟩, fun hok => absurd hok (by simp)⟩
      | ok u =>
        dsimp only []
        rcases h3 : makedirsLoop rest s2 with ⟨t3, s3, r3⟩
        obtain ⟨⟨n, hn, heq⟩, himp⟩ := ih s2
        rw [h3] at heq himp
        dsimp only [] at heq himp ⊢
        refine ⟨⟨n + 1, by simpa using hn, ?_⟩, ?_⟩
        · simp only [mkdArgs, List.filterMap_cons, List.filterMap_append] at heq ⊢
          simp [heq, List.take_succ_cons]
        · intro hok
          have hr3 : r3 = .ok () := by simpa using hok
          have hfull := himp hr3
          simp only [mkdArgs, List.filterMap_cons, List.filterMap_append] at hfull ⊢
          simp [hfull]

theorem makedirs_ok {path base : String} {s : Server} {t : List Cmd}
    {s2 : Server} (habs : isAbs base = true)
    (h : makedirs path base s = (t, s2, .ok ())) :
    s2.cwd = pathSegs base ∧ s2.files = s.files ∧
    (∀ d, d ∈ s2.dirs ↔ d ∈ s.dirs ∨
      ∃ i, i < (stripSegs path).length ∧
        d = pathSegs base ++ (stripSegs path).take (i + 1)) ∧
    t = Cmd.cwd base :: (segTrace (stripSegs path) ++ [Cmd.cwd base]) := by
  simp only [makedirs, FtpM.bind] at h
  rcases h1 : FTP.cwd base s with ⟨tA, sA, rA⟩
  rw [h1] at h
  cases rA with
  | error e => simp at h
  | ok uA =>
    dsimp only [] at h
    rcases h2 : makedirsLoop (stripSegs path) sA with ⟨tB, sB, rB⟩
    rw [h2] at h
    cases rB with
    | error e => simp at h
    | ok uB =>
      dsimp only [] at h
      rcases h3 : FTP.cwd base sB with ⟨tC, sC, rC⟩
      rw [h3] at h
      cases rC with
      | error e =>
        dsimp only [] at h
        simp at h
      | ok uC =>
        dsimp only [] at h
        simp only [Prod.mk.injEq] at h
        obtain ⟨ht, hs, -⟩ := h
        subst hs
        obtain ⟨hA1, hA2, hA3⟩ := FTP.cwd_ok h1
        obtain ⟨hB1, hB2, hB3, hB4⟩ :=
          makedirsLoop_ok _ (stripSegs_no_sep path) _ _ _ h2
        obtain ⟨hC1, hC2, hC3⟩ := FTP.cwd_ok h3
        have hcwdA : sA.cwd = pathSegs base := by
          rw [hA2, resolvePath_abs habs]
        have hdirsA : sA.dirs = s.dirs := by rw [hA2]
        have hfilesA : sA.files = s.files := by rw [hA2]
        refine ⟨?_, ?_, ?_, ?_⟩
        · rw [hC2, resolvePath_abs habs]
        · rw [hC2]
          dsimp only []
          rw [hB2, hfilesA]
        · intro d
          have hdirsC : sC.dirs = sB.dirs := by rw [hC2]
          rw [hdirsC, hB3 d, hdirsA, hcwdA]
        · rw [← ht, hA1, hB4, hC1]
          rfl

theorem makedirs_files (path base : String) (s : Server) :
    ((makedirs path base s).2.1).files = s.files := by
  simp only [makedirs, FtpM.bind]
  rcases h1 : FTP.cwd base s with ⟨tA, sA, rA⟩
  have hfA : sA.files = s.files := by
    have hm := (FTP.cwd_server base s).2
    rw [h1] at hm
    exact hm
  cases rA with
  | error e =>
    dsimp only []
    exact hfA
  | ok uA =>
    dsimp only []
    rcases h2 : makedirsLoop (stripSegs path) sA with ⟨tB, sB, rB⟩
    have hfB : sB.files = sA.files := by
      have hm := makedirsLoop_files (stripSegs path) sA
      rw [h2] at hm
      exact hm
    cases rB with
    | error e =>
      dsimp only []
      rw [hfB, hfA]
    | ok uB =>
      dsimp only []
      rcases h3 : FTP.cwd base sB with ⟨tC, sC, rC⟩
      have hfC : sC.files = sB.files := by
        have hm := (FTP.cwd_server base sB).2
        rw [h3] at hm
        exact hm
      dsimp only []
      rw [hfC, hfB, hfA]

theorem makedirs_dirs_grow {path base : String} {s : Server} {t : List Cmd}
    {s2 : Server} (h : makedirs path base s = (t, s2, .ok ())) :
    s.dirs ⊆ s2.dirs := by
  simp only [makedirs, FtpM.bind] at h
  rcases h1 : FTP.cwd base s with ⟨tA, sA, rA⟩
  rw [h1] at h
  cases rA with
  | error e => simp at h
  | ok uA =>
    dsimp only [] at h
    rcases h2 : makedirsLoop (stripSegs path) sA with ⟨tB, sB, rB⟩
    rw [h2] at h
    cases rB with
    | error e => simp at h
    | ok uB =>
      dsimp only [] at h
      rcases h3 : FTP.cwd base sB with ⟨tC, sC, rC⟩
      rw [h3] at h
      cases rC with
      | error e =>
        dsimp only [] at h
        simp at h
      | ok uC =>
        dsimp only [] at h
        simp only [Prod.mk.injEq] at h
        obtain ⟨-, hs, -⟩ := h
        subst hs
        obtain ⟨-, hA2, -⟩ := FTP.cwd_ok h1
        obtain ⟨-, -, hB3, -⟩ :=
          makedirsLoop_ok _ (stripSegs_no_sep path) _ _ _ h2
        obtain ⟨-, hC2, -⟩ := FTP.cwd_ok h3
        intro d hd
        have hdA : d ∈ sA.dirs := by rw [hA2]; exact hd
        have hdB : d ∈ sB.dirs := (hB3 d).mpr (Or.inl hdA)
        rw [hC2]
        exact hdB

theorem makedirs_mkdArgs (path base : String) (s : Server) :
    (∃ n, n ≤ (stripSegs path).length ∧
      mkdArgs (makedirs path base s).1 = (stripSegs path).take n) ∧
    ((makedirs path base s).2.2 = .ok () →
      mkdArgs (makedirs path base s).1 = stripSegs path) := by
  simp only [makedirs, FtpM.bind]
  rcases h1 : FTP.cwd base s with ⟨tA, sA, rA⟩
  have htA : tA = [Cmd.cwd base] := by
    have hm : (FTP.cwd base s).1 = [Cmd.cwd base] := rfl
    rw [h1] at hm
    exact hm
  subst htA
  cases rA with
  | error e =>
    dsimp only []
    exact ⟨⟨0, by simp, by simp [mkdArgs]⟩, fun hok => absurd hok (by simp)⟩
  | ok uA =>
    dsimp only []
    rcases h2 : makedirsLoop (stripSegs path) sA with ⟨tB, sB, rB⟩
    obtain ⟨⟨n, hn, heq⟩, himp⟩ := makedirsLoop_mkdArgs (stripSegs path) sA
    rw [h2] at heq himp
    dsimp only [] at heq himp
    cases rB with
    | error e =>
      dsimp only []
      refine ⟨⟨n, hn, ?_⟩, fun hok => absurd hok (by simp)⟩
      simp only [mkdArgs, List.filterMap_cons, List.filterMap_append] at heq ⊢
      simpa using heq
    | ok uB =>
      dsimp only []
      rcases h3 : FTP.cwd base sB with ⟨tC, sC, rC⟩
      have htC : tC = [Cmd.cwd base] := by
        have hm : (FTP.cwd base sB).1 = [Cmd.cwd base] := rfl
        rw [h3] at hm
        exact hm
      subst htC
      have hfull : mkdArgs tB = stripSegs path := himp rfl
      refine ⟨⟨(stripSegs path).length, le_refl _, ?_⟩, fun _ => ?_⟩
      · simp only [mkdArgs, List.filterMap_cons, List.filterMap_append] at hfull ⊢
        simp [hfull]
      · simp only [mkdArgs, List.filterMap_cons, List.filterMap_append] at hfull ⊢
        simp [hfull]

/-! ## Behaviour of `upload_file` -/

theorem uniqueCore_notMem (names : List String) (fn : String) :
    uniqueCore names fn ∉ names := by
  obtain ⟨m, hm, -, he⟩ := uniqueCore_spec names fn
  rw [he]
  exact hm

theorem FTP.storbinary_STOR (x : String) (s : Server) :
    FTP.storbinary ("STOR " ++ x) s =
      ([Cmd.stor ("STOR " ++ x)],
        (if (s.cwd, x) ∈ s.files then s
         else { s with files := (s.cwd, x) :: s.files }), .ok ()) := by
  unfold FTP.storbinary
  have hlen : ("STOR " : String).data.length = 5 := rfl
  have htake : (("STOR " ++ x) : String).data.take 5 = ("STOR " : String).data := by
    rw [string_append_data]
    exact List.take_left' hlen
  have hdrop : (("STOR " ++ x) : String).data.drop 5 = x.data := by
    rw [string_append_data]
    exact List.drop_left' hlen
  rw [if_pos htake, hdrop]
  dsimp only []
  by_cases hmem : (s.cwd, x) ∈ s.files
  · rw [if_pos hmem, if_pos hmem]
  · rw [if_neg hmem, if_neg hmem]

theorem upload_file_ok_spec {fs : LocalFS} {ld fn fd : String} {re : Bool}
    {s : Server} {t : List Cmd} {s2 : Server} {out : String}
    (h : upload_file fs ld fn fd re s = (t, s2, .ok out)) :
    (re = true → out = fn) ∧
    (re = false → out = uniqueCore (dirListing s s2.cwd) fn ∧
      out ∉ dirListing s s2.cwd) ∧
    (s2.cwd, out) ∈ s2.files ∧
    (∃ t0, t = t0 ++ [Cmd.stor ("STOR " ++ out)]) := by
  unfold upload_file at h
  by_cases hpre : ¬(fs.pathExists (pathJoin ld fn) && fs.isfile (pathJoin ld fn)) = true
  · rw [if_pos hpre] at h
    simp at h
  · rw [if_neg hpre] at h
    simp only [FtpM.bind] at h
    rcases h1 : makedirs fd "/" s with ⟨tA, sA, rA⟩
    rw [h1] at h
    cases rA with
    | error e => simp at h
    | ok uA =>
      dsimp only [] at h
      have hfA : sA.files = s.files := by
        have hm := makedirs_files fd "/" s
        rw [h1] at hm
        exact hm
      rcases h2 : FTP.cwd fd sA with ⟨tB, sB, rB⟩
      rw [h2] at h
      cases rB with
      | error e => simp at h
      | ok uB =>
        dsimp only [] at h
        obtain ⟨hB1, hB2, hB3⟩ := FTP.cwd_ok h2
        have hfB : sB.files = s.files := by rw [hB2]; exact hfA
        have hcwdB : sB.cwd ∈ sB.dirs := by
          rw [hB2]
          exact hB3
        cases re with
        | true =>
          rw [if_pos rfl] at h
          simp only [FtpM.pure] at h
          rw [FTP.storbinary_STOR fn sB] at h
          dsimp only [] at h
          simp only [Prod.mk.injEq] at h
          obtain ⟨ht, hs, hout⟩ := h
          have hout2 : out = fn := by
            cases hout
            rfl
          subst hout2
          refine ⟨fun _ => rfl, fun hre => absurd hre (by simp), ?_, ?_⟩
          · rw [← hs]
            split
            · rename_i hmem
              exact hmem
            · exact List.mem_cons_self _ _
          · exact ⟨tA ++ (tB ++ []), by rw [← ht]; simp⟩
        | false =>
          rw [if_neg (by simp)] at h
          simp only [get_unique_file_name_if_exists, list_files, FtpM.bind] at h
          rw [FTP.nlst_current_ok hcwdB] at h
          dsimp only [] at h
          simp only [FtpM.pure] at h
          rw [FTP.storbinary_STOR (uniqueCore (dirListing sB sB.cwd) fn) sB] at h
          dsimp only [] at h
          simp only [Prod.mk.injEq] at h
          obtain ⟨ht, hs, hout⟩ := h
          have hout2 : out = uniqueCore (dirListing sB sB.cwd) fn := by
            cases hout
            rfl
          have hcwd2 : s2.cwd = sB.cwd := by
            rw [← hs]
            split <;> rfl
          have hlist : dirListing s s2.cwd = dirListing sB sB.cwd := by
            unfold dirListing
            rw [hcwd2, hfB]
          refine ⟨fun hre => absurd hre (by simp), fun _ => ?_, ?_, ?_⟩
          · rw [hlist, hout2]
            exact ⟨rfl, uniqueCore_notMem _ _⟩
          · rw [hcwd2, ← hs, hout2]
            split
            · rename_i hmem
              exact hmem
            · exact List.mem_cons_self _ _
          · exact ⟨tA ++ (tB ++ ([Cmd.nlst ""] ++ [])), by rw [← ht, hout2]; simp⟩

theorem upload_file_missing_eq (fs : LocalFS) (ld fn fd : String) (re : Bool)
    (s : Server)
    (h : (fs.pathExists (pathJoin ld fn) && fs.isfile (pathJoin ld fn)) = false) :
    upload_file fs ld fn fd re s =
      ([], s, .error (.osError ("Does not exist " ++ pathJoin ld fn))) := by
  unfold upload_file
  rw [if_pos (show
    ¬(fs.pathExists (pathJoin ld fn) && fs.isfile (pathJoin ld fn)) = true by
      simp [h])]

/-! ## Behaviour of `_download` -/

theorem foldl_fileWrites (p : String) :
    ∀ (chunks : List β) (st : DlState β),
      chunks.foldl
        (fun st c => { st with fileWrites := st.fileWrites ++ [(p, c)] }) st =
        { st with fileWrites := st.fileWrites ++ chunks.map (fun c => (p, c)) } := by
  intro chunks
  induction chunks with
  | nil => intro st; simp
  | cons c rest ih =>
    intro st
    rw [List.foldl_cons, ih]
    simp

theorem foldl_handlerCalls :
    ∀ (chunks : List β) (st : DlState β),
      chunks.foldl
        (fun st c => { st with handlerCalls := st.handlerCalls ++ [c] }) st =
        { st with handlerCalls := st.handlerCalls ++ chunks } := by
  intro chunks
  induction chunks with
  | nil => intro st; simp
  | cons c rest ih =>
    intro st
    rw [List.foldl_cons, ih]
    simp

/-! ## Claim theorems -/

/-- C1: for every file name `N` and every set `S` of names listed in the
target directory, `get_unique_file_name_if_exists` (pure core `uniqueCore`)
returns a name not in `S`; it returns `N` itself if `N ∉ S`, and otherwise
returns `root-k.ext` (`cand N k`, where `root.ext` is the `splitext` of `N`)
for the smallest `k ≥ 1` such that `root-k.ext ∉ S`. -/
theorem unique_name_resolver_correct (names : List String) (fn : String) :
    uniqueCore names fn ∉ names ∧
    (fn ∉ names → uniqueCore names fn = fn) ∧
    (fn ∈ names → ∃ k, 1 ≤ k ∧ uniqueCore names fn = cand fn k ∧
      cand fn k ∉ names ∧ ∀ j, 1 ≤ j → j < k → cand fn j ∈ names) := by
  obtain ⟨m, hm1, hm2, hm3⟩ := uniqueCore_spec names fn
  refine ⟨by rw [hm3]; exact hm1, ?_, ?_⟩
  · intro hfn
    cases m with
    | zero => rw [hm3]; rfl
    | succ m2 => exact absurd (hm2 0 (Nat.succ_pos _)) hfn
  · intro hfn
    cases m with
    | zero => exact absurd hfn hm1
    | succ m2 =>
      exact ⟨m2 + 1, Nat.succ_le_succ (Nat.zero_le _), hm3, hm1,
        fun j _ h2 => hm2 j h2⟩

/-- Witness for C1 at a concrete input where the original name is free. -/
theorem unique_name_resolver_correct_witness :
    uniqueCore ["sample-1.txt"] "sample.txt" = "sample.txt" ∧
    "sample.txt" ∉ ["sample-1.txt"] := by
  have h := unique_name_resolver_correct ["sample-1.txt"] "sample.txt"
  exact ⟨h.2.1 (by decide), by decide⟩

/-- C10: the unique-name loop terminates on every input: the candidates are
pairwise distinct (strictly increasing suffix from the fixed original name),
so some candidate with index at most `names.length + 1` lies outside the
finite listing, and the loop's result is such a free name. -/
theorem unique_name_loop_terminates (names : List String) (fn : String) :
    (∀ j k, cand fn j = cand fn k → j = k) ∧
    (∃ k, k ≤ names.length + 1 ∧ cand fn k ∉ names) ∧
    uniqueCore names fn ∉ names :=
  ⟨cand_injective fn, cand_exists_notMem names fn, uniqueCore_notMem names fn⟩

/-- Witness for C10 at a concrete input. -/
theorem unique_name_loop_terminates_witness :
    uniqueCore ["sample.txt"] "sample.txt" ∉ ["sample.txt"] ∧ (2 : Nat) = 2 := by
  have h := unique_name_loop_terminates ["sample.txt"] "sample.txt"
  exact ⟨h.2.2, h.1 2 2 rfl⟩

/-- C4: when the joined local path does not exist or is not a regular file,
`upload_file` raises the local precondition `OSError` and performs no remote
side effects: the command trace is empty (no FTP client method is invoked),
so no remote directory is created, the working directory is unchanged and
zero remote files are created (the server state is returned untouched). -/
theorem upload_missing_local_no_side_effects
    (fs : LocalFS) (ld fn fd : String) (re : Bool) (s : Server)
    (h : (fs.pathExists (pathJoin ld fn) && fs.isfile (pathJoin ld fn)) = false) :
    upload_file fs ld fn fd re s =
      ([], s, .error (.osError ("Does not exist " ++ pathJoin ld fn))) :=
  upload_file_missing_eq fs ld fn fd re s h

/-- Witness for C4 at a concrete input. -/
theorem upload_missing_local_no_side_effects_witness :
    upload_file fsNone "test/data" "sample.txt" "test/data/" false srv0 =
      ([], srv0,
        .error (.osError ("Does not exist " ++ pathJoin "test/data" "sample.txt"))) :=
  upload_missing_local_no_side_effects fsNone "test/data" "sample.txt"
    "test/data/" false srv0 rfl

/-- C2 counterexample: the claim says the local precondition error is not
retried and propagates on the first occurrence with no delay; in fact the
retried upload of a missing local file runs 3 attempts with two 5-unit
sleeps, and what propagates is a `RetryError` wrapping the `OSError`, not
the `OSError` itself (`OSError ∈ ftplib.all_errors`, so tenacity retries it). -/
theorem upload_missing_retried_counterexample :
    (retryFtpM (upload_file fsNone "d" "f.txt" "r" false) srv0).attempts = 3 ∧
    (retryFtpM (upload_file fsNone "d" "f.txt" "r" false) srv0).delays = [5, 5] ∧
    (retryFtpM (upload_file fsNone "d" "f.txt" "r" false) srv0).result =
      .error (.retryError (.osError "Does not exist d/f.txt")) ∧
    (retryFtpM (upload_file fsNone "d" "f.txt" "r" false) srv0).result ≠
      .error (.osError "Does not exist d/f.txt") := by
  refine ⟨rfl, rfl, rfl, ?_⟩
  have he : (retryFtpM (upload_file fsNone "d" "f.txt" "r" false) srv0).result =
      .error (.retryError (.osError "Does not exist d/f.txt")) := rfl
  rw [he]
  simp

/-- C2 (amended): the local precondition `OSError` is matched by
`retry_if_exception_type(ftplib.all_errors)` because Python 3's
`ftplib.all_errors` contains `OSError`; the retried upload of a missing
local file therefore runs 3 attempts with a 5-unit delay between attempts
(still issuing no FTP command and leaving the server untouched), and a
`RetryError` wrapping the `OSError` propagates to the caller. -/
theorem upload_missing_is_retried
    (fs : LocalFS) (ld fn fd : String) (re : Bool) (s : Server)
    (h : (fs.pathExists (pathJoin ld fn) && fs.isfile (pathJoin ld fn)) = false) :
    isFtplibAllError (.osError ("Does not exist " ++ pathJoin ld fn)) = true ∧
    (retryFtpM (upload_file fs ld fn fd re) s).attempts = 3 ∧
    (retryFtpM (upload_file fs ld fn fd re) s).delays = [5, 5] ∧
    (retryFtpM (upload_file fs ld fn fd re) s).trace = [] ∧
    (retryFtpM (upload_file fs ld fn fd re) s).server = s ∧
    (retryFtpM (upload_file fs ld fn fd re) s).result =
      .error (.retryError (.osError ("Does not exist " ++ pathJoin ld fn))) := by
  have hop : ∀ s2 : Server, upload_file fs ld fn fd re s2 =
      ([], s2, .error (.osError ("Does not exist " ++ pathJoin ld fn))) :=
    fun s2 => upload_file_missing_eq fs ld fn fd re s2 h
  refine ⟨rfl, ?_, ?_, ?_, ?_, ?_⟩ <;>
    simp [retryFtpM, retryFtpMAux, hop, isFtplibAllError]

/-- Witness for C2's amended statement at a concrete input. -/
theorem upload_missing_is_retried_witness :
    (retryFtpM (upload_file fsNone "dir" "g.txt" "r" false) srv0).delays = [5, 5] ∧
    (retryFtpM (upload_file fsNone "dir" "g.txt" "r" false) srv0).server = srv0 := by
  have h := upload_missing_is_retried fsNone "dir" "g.txt" "r" false srv0 rfl
  exact ⟨h.2.2.1, h.2.2.2.2.1⟩

/-- C3 counterexample: for an operation that fails with the same transport
error on every attempt, the retry policy runs 3 attempts with two 5-unit
delays but raises `RetryError` wrapping the last transport error — the last
transport error itself does not propagate. -/
theorem retry_exhaustion_wraps_last_error :
    (retryRun (fun _ => (.error (.ftpError "421 timeout") : Except PyErr Unit))).attempts = 3 ∧
    (retryRun (fun _ => (.error (.ftpError "421 timeout") : Except PyErr Unit))).delays = [5, 5] ∧
    (retryRun (fun _ => (.error (.ftpError "421 timeout") : Except PyErr Unit))).result =
      .error (.retryError (.ftpError "421 timeout")) ∧
    (retryRun (fun _ => (.error (.ftpError "421 timeout") : Except PyErr Unit))).result ≠
      .error (.ftpError "421 timeout") := by
  refine ⟨rfl, rfl, rfl, ?_⟩
  have he : (retryRun (fun _ => (.error (.ftpError "421 timeout") : Except PyErr Unit))).result =
      .error (.retryError (.ftpError "421 timeout")) := rfl
  rw [he]
  simp

/-- C3 (amended): a transport error makes the retry policy re-attempt the
whole operation, up to 3 attempts with a fixed 5-unit delay between
attempts; an operation that recovers on the second attempt succeeds after
one delay, and after the attempts are exhausted a `RetryError` wrapping the
last transport error propagates to the caller. -/
theorem retry_policy_on_transport_errors (α : Type) :
    (∀ (op : Nat → Except PyErr α) (m1 m2 m3 : String),
      op 1 = .error (.ftpError m1) → op 2 = .error (.ftpError m2) →
      op 3 = .error (.ftpError m3) →
      (retryRun op).attempts = 3 ∧ (retryRun op).delays = [5, 5] ∧
      (retryRun op).result = .error (.retryError (.ftpError m3))) ∧
    (∀ (op : Nat → Except PyErr α) (m : String) (a : α),
      op 1 = .error (.ftpError m) → op 2 = .ok a →
      (retryRun op).attempts = 2 ∧ (retryRun op).delays = [5] ∧
      (retryRun op).result = .ok a) := by
  constructor
  · intro op m1 m2 m3 h1 h2 h3
    refine ⟨?_, ?_, ?_⟩ <;>
      simp [retryRun, retryAttempts, h1, h2, h3, isFtplibAllError]
  · intro op m a h1 h2
    refine ⟨?_, ?_, ?_⟩ <;>
      simp [retryRun, retryAttempts, h1, h2, isFtplibAllError]

/-- Witness for C3's amended statement at concrete operations. -/
theorem retry_policy_on_transport_errors_witness :
    (retryRun (fun _ => (.error (.ftpError "x") : Except PyErr Nat))).attempts = 3 ∧
    (retryRun (fun i => if i = 1 then (.error (.ftpError "x") : Except PyErr Nat)
      else .ok 7)).result = .ok 7 := by
  have h1 := (retry_policy_on_transport_errors Nat).1
    (fun _ => .error (.ftpError "x")) "x" "x" "x" rfl rfl rfl
  have h2 := (retry_policy_on_transport_errors Nat).2
    (fun i => if i = 1 then .error (.ftpError "x") else .ok 7) "x" 7 rfl rfl
  exact ⟨h1.1, h2.2.2⟩

/-- C5 counterexample: with the empty base directory (`ftplib` maps
`cwd('')` to `CWD .`), `makedirs "a" ""` on a fresh server returns normally
but leaves the working directory at the newly created leaf `["a"]`, not at
the directory it started in. -/
theorem makedirs_empty_base_counterexample :
    (makedirs "a" "" srv0).2.2 = .ok () ∧
    (makedirs "a" "" srv0).2.1.cwd = ["a"] ∧
    resolvePath srv0.cwd "" = srv0.cwd ∧
    srv0.cwd = [] ∧
    (["a"] : List String) ≠ [] := by
  refine ⟨rfl, rfl, rfl, rfl, by simp⟩

/-- C5 (amended): for every path and every absolute base directory (one
starting with `/`), when `makedirs` returns normally the connection's
working directory equals the base directory (not the newly created leaf),
and the path's stripped segments were each created in order as
subdirectories of the previous one (the directories afterwards are exactly
those before plus the chain of nested prefixes, and the trace is
`cwd base`, then `mkd`/`cwd` per segment in order, then `cwd base`); e.g.
for path `test/data/` and base `/` it creates `test` then `data` inside it
and ends positioned at the root. -/
theorem makedirs_ends_at_absolute_base :
    (∀ (path base : String) (s : Server) (t : List Cmd) (s2 : Server),
      isAbs base = true → makedirs path base s = (t, s2, .ok ()) →
      s2.cwd = pathSegs base ∧ s2.files = s.files ∧
      (∀ d, d ∈ s2.dirs ↔ d ∈ s.dirs ∨
        ∃ i, i < (stripSegs path).length ∧
          d = pathSegs base ++ (stripSegs path).take (i + 1)) ∧
      t = Cmd.cwd base :: (segTrace (stripSegs path) ++ [Cmd.cwd base])) ∧
    ((makedirs "test/data/" "/" srv0).2.2 = .ok () ∧
     (makedirs "test/data/" "/" srv0).2.1.cwd = [] ∧
     (makedirs "test/data/" "/" srv0).2.1.dirs =
       [["test", "data"], ["test"], []]) := by
  refine ⟨?_, rfl, rfl, rfl⟩
  intro path base s t s2 habs h
  exact makedirs_ok habs h

/-- Witness for C5's amended statement at a concrete input. -/
theorem makedirs_ends_at_absolute_base_witness :
    (makedirs "x" "/" srv0).2.1.cwd = pathSegs "/" ∧
    (makedirs "x" "/" srv0).2.1.files = srv0.files := by
  have h := makedirs_ends_at_absolute_base.1 "x" "/" srv0
    (makedirs "x" "/" srv0).1 (makedirs "x" "/" srv0).2.1 rfl rfl
  exact ⟨h.1, h.2.1⟩

/-- C6 counterexample: consecutive separators survive
`path.strip('/').split('/')` as empty fields, so `makedirs "a//b"` attempts
`mkd` of an empty directory name — the claim that only non-empty segments
are attempted is false. -/
theorem makedirs_attempts_empty_mkd_counterexample :
    Cmd.mkd "" ∈ (makedirs "a//b" "/" srv0).1 ∧ "" ∈ stripSegs "a//b" := by
  exact ⟨by decide, by decide⟩

/-- C6 (amended): `makedirs` issues one `mkd` (followed on success by one
`cwd`) for each field of `path.strip('/').split('/')` in order, up to the
first failing call; those fields include empty names when the path is empty
after stripping or contains consecutive separators, so an empty-named `mkd`
is attempted for such paths. -/
theorem makedirs_mkd_per_split_field (path base : String) (s : Server) :
    (∃ n, n ≤ (stripSegs path).length ∧
      mkdArgs (makedirs path base s).1 = (stripSegs path).take n) ∧
    ((makedirs path base s).2.2 = .ok () →
      mkdArgs (makedirs path base s).1 = stripSegs path) :=
  makedirs_mkdArgs path base s

/-- Witness for C6's amended statement at a concrete input. -/
theorem makedirs_mkd_per_split_field_witness :
    mkdArgs (makedirs "test/data/" "/" srv0).1 = ["test", "data"] :=
  (makedirs_mkd_per_split_field "test/data/" "/" srv0).2 rfl

/-- C8: the resource guard `FTPLogErrors` closes the wrapped connection on
every scope exit; on an error it logs the error before closing; and it
never suppresses the error — the outcome seen by the caller is always the
body's outcome. -/
theorem ftp_log_errors_guard (α : Type) :
    (∀ body : Except PyErr α,
      (FTPLogErrors body).2 = body ∧
      GuardEvent.closeConn ∈ (FTPLogErrors body).1) ∧
    (∀ a : α, FTPLogErrors (.ok a) = ([.closeConn], .ok a)) ∧
    (∀ e : PyErr, FTPLogErrors (.error e : Except PyErr α) =
      ([.logError e, .closeConn], .error e)) := by
  refine ⟨?_, fun a => rfl, fun e => rfl⟩
  intro body
  cases body <;> simp [FTPLogErrors]

/-- Witness for C8 at a concrete error. -/
theorem ftp_log_errors_guard_witness :
    (FTPLogErrors (.error (.ftpError "425") : Except PyErr Unit)).2 =
      .error (.ftpError "425") ∧
    FTPLogErrors (.error (.ftpError "425") : Except PyErr Unit) =
      ([.logError (.ftpError "425"), .closeConn], .error (.ftpError "425")) :=
  ⟨((ftp_log_errors_guard Unit).1 _).1,
   (ftp_log_errors_guard Unit).2.2 (.ftpError "425")⟩

/-- C9: in `_download` (`download_inner`), if no sink callback is supplied
the local destination is opened for binary writing (`wb`) and its write
operation is the sink — every chunk is written to it in arrival order and
that internally opened file is closed after the transfer; if a sink
callback is supplied, every received chunk is fed to it in arrival order
and nothing is opened or closed. -/
theorem download_sink_behavior (β : Type) :
    (∀ (lfp rfp : String) (chunks : List β),
      download_inner lfp rfp chunks false =
        ⟨[(lfp, "wb")], chunks.map (fun c => (lfp, c)), [lfp], [],
          "RETR " ++ rfp⟩) ∧
    (∀ (lfp rfp : String) (chunks : List β),
      download_inner lfp rfp chunks true =
        ⟨[], [], [], chunks, "RETR " ++ rfp⟩) := by
  constructor
  · intro lfp rfp chunks
    unfold download_inner
    simp only [Bool.false_eq_true, if_false]
    rw [foldl_fileWrites]
    simp
  · intro lfp rfp chunks
    unfold download_inner
    rw [if_pos rfl]
    dsimp only []
    rw [foldl_handlerCalls]
    simp

/-- Witness for C9 at concrete chunks. -/
theorem download_sink_behavior_witness :
    download_inner "local.txt" "sample.txt" [1, 2] false =
      ⟨[("local.txt", "wb")], [("local.txt", 1), ("local.txt", 2)],
        ["local.txt"], [], "RETR sample.txt"⟩ ∧
    (download_inner "local.txt" "sample.txt" [1, 2] true).handlerCalls = [1, 2] := by
  constructor
  · exact (download_sink_behavior Nat).1 "local.txt" "sample.txt" [1, 2]
  · rw [(download_sink_behavior Nat).2 "local.txt" "sample.txt" [1, 2]]

/-- C7: `upload_file` with `rename_existing = false` stores under the name
computed by the unique-name resolver from the target directory's listing
(which is not among the names already present), and with
`rename_existing = true` stores under the original name unchanged; in both
cases the returned value is the name used in the `STOR` command.  Uploading
`sample.txt` three times into `test/data/` from a fresh server yields the 3
distinct remote names `sample.txt`, `sample-1.txt`, `sample-2.txt` (and 3
files), while with `rename_existing = true` all three uploads use
`sample.txt` and exactly 1 remote file remains. -/
theorem upload_rename_existing_behavior :
    (∀ (fs : LocalFS) (ld fn fd : String) (s : Server) (t : List Cmd)
        (s2 : Server) (out : String),
      upload_file fs ld fn fd false s = (t, s2, .ok out) →
      out = uniqueCore (dirListing s s2.cwd) fn ∧ out ∉ dirListing s s2.cwd ∧
      (s2.cwd, out) ∈ s2.files ∧ ∃ t0, t = t0 ++ [Cmd.stor ("STOR " ++ out)]) ∧
    (∀ (fs : LocalFS) (ld fn fd : String) (s : Server) (t : List Cmd)
        (s2 : Server) (out : String),
      upload_file fs ld fn fd true s = (t, s2, .ok out) →
      out = fn ∧ (s2.cwd, fn) ∈ s2.files ∧
      ∃ t0, t = t0 ++ [Cmd.stor ("STOR " ++ fn)]) ∧
    ((up1 false).2.2 = .ok "sample.txt" ∧
     (up2 false).2.2 = .ok "sample-1.txt" ∧
     (up3 false).2.2 = .ok "sample-2.txt" ∧
     (up3 false).2.1.files =
       [(["test", "data"], "sample-2.txt"), (["test", "data"], "sample-1.txt"),
        (["test", "data"], "sample.txt")]) ∧
    ((up1 true).2.2 = .ok "sample.txt" ∧
     (up2 true).2.2 = .ok "sample.txt" ∧
     (up3 true).2.2 = .ok "sample.txt" ∧
     (up3 true).2.1.files = [(["test", "data"], "sample.txt")]) := by
  refine ⟨?_, ?_, ⟨rfl, rfl, rfl, rfl⟩, ⟨rfl, rfl, rfl, rfl⟩⟩
  · intro fs ld fn fd s t s2 out h
    obtain ⟨-, hfalse, hmem, htr⟩ := upload_file_ok_spec h
    obtain ⟨hu, hnot⟩ := hfalse rfl
    exact ⟨hu, hnot, hmem, htr⟩
  · intro fs ld fn fd s t s2 out h
    obtain ⟨htrue, -, hmem, htr⟩ := upload_file_ok_spec h
    have hfn := htrue rfl
    subst hfn
    exact ⟨rfl, hmem, htr⟩

/-- Witness for C7's universal parts at the concrete first uploads. -/
theorem upload_rename_existing_behavior_witness :
    ((up1 false).2.1.cwd, "sample.txt") ∈ (up1 false).2.1.files ∧
    ((up1 true).2.1.cwd, "sample.txt") ∈ (up1 true).2.1.files := by
  have h1 := upload_rename_existing_behavior.1 fsAll "test/data" "sample.txt"
    "test/data/" srv0 (up1 false).1 (up1 false).2.1 "sample.txt" rfl
  have h2 := upload_rename_existing_behavior.2.1 fsAll "test/data" "sample.txt"
    "test/data/" srv0 (up1 true).1 (up1 true).2.1 "sample.txt" rfl
  exact ⟨h1.2.2.1, h2.2.1⟩

end FtpUtils
